import Mathlib

set_option maxRecDepth 10000

/-!
Verification of the webhook aggregator server (`src/server.ts`, the
Redis-backed implementation).  The embedding models:

* JSON-ish request/response payloads (`JVal`, `JObj`) with JavaScript
  object semantics: ordered key/value pairs, field access, `...spread`
  overlay (later assignment wins), and rest-destructuring removal;
* the server state: `queue:<id>` records, `status:<id>` records, the two
  bounded histories (`history:received`, `history:sent`) and the
  in-process `queueTimeouts` map;
* the HTTP handlers and the timer callback: `postWebhook`
  (POST /webhook), `processQueue`/`sendAggregatedWebhook` (the
  debounce-timer firing), `getStatusR` (GET /status/:id) and
  `clearLogs` (POST /clear-logs).

The wall clock is modelled as a `Nat` passed to each action
(`new Date().toISOString()` becomes `isoTime now`), `Math.random`-based
id generation as an ambient stream `rand : Nat -> String` consumed at a
draw counter kept in the state, and the downstream HTTP call as an
explicit `DispatchResult` input (any-status response, or transport
error — `validateStatus: () => true` makes axios return rather than
throw for every HTTP status).
-/

/-- A JavaScript/JSON value as far as the server manipulates one. -/
inductive JVal where
  | str : String → JVal
  | num : Int → JVal
  | bool : Bool → JVal
  | arr : List JVal → JVal
  | obj : List (String × JVal) → JVal
deriving Repr

/-- A JavaScript object: insertion-ordered key/value pairs. -/
abbrev JObj := List (String × JVal)

mutual
/-- JavaScript `String(v)` coercion, as used by `Array.prototype.join`
and template literals (an array stringifies as its elements joined by
commas). -/
def jsToString : JVal → String
  | .str s => s
  | .num n => toString n
  | .bool b => if b then "true" else "false"
  | .obj _ => "[object Object]"
  | .arr l => jsToStringList l
def jsToStringList : List JVal → String
  | [] => ""
  | [v] => jsToString v
  | v :: rest => jsToString v ++ "," ++ jsToStringList rest
end

/-- Field access `o.k`: `none` models JavaScript `undefined`. -/
def jget : JObj → String → Option JVal
  | [], _ => none
  | (k', v) :: rest, k => if k' = k then some v else jget rest k

/-- Property assignment `o[k] = v`: overwrite in place if the key is
present (JS objects keep one slot per key), else append. -/
def objSet : JObj → String → JVal → JObj
  | [], k, v => [(k, v)]
  | (k', v') :: rest, k, v =>
      if k' = k then (k, v) :: rest else (k', v') :: objSet rest k v

/-- `{...base, ...over}`: assign every property of `over`, in order,
on top of `base` — later assignments win, as in JS spread. -/
def objSpread (base over : JObj) : JObj :=
  over.foldl (fun acc kv => objSet acc kv.1 kv.2) base

/-- Rest destructuring `const {a, b, ...rest} = o`: `rest` is `o`
without the named keys. -/
def objRemove : JObj → List String → JObj
  | [], _ => []
  | (k, v) :: rest, ks =>
      if ks.contains k then objRemove rest ks else (k, v) :: objRemove rest ks

/-- JavaScript falsiness of a defined value (`!v`). -/
def jsFalsy : JVal → Bool
  | .str s => s = ""
  | .num n => n = 0
  | .bool b => !b
  | .arr _ => false
  | .obj _ => false

/-- Map lookup (Redis `get queue:<k>` / JS `Map.get`). -/
def mapGet : List (String × α) → String → Option α
  | [], _ => none
  | (k', v) :: rest, k => if k' = k then some v else mapGet rest k

/-- Map deletion (Redis `del` / JS `Map.delete`): drop the entries
stored under the key. -/
def mapDel : List (String × α) → String → List (String × α)
  | [], _ => []
  | (k', v) :: rest, k =>
      if k' = k then mapDel rest k else (k', v) :: mapDel rest k

/-- Map update (Redis `set` / JS `Map.set`), modelled as
remove-then-cons; lookups agree with the slot-preserving original and
no code path iterates these maps in an order-sensitive way. -/
def mapSet (m : List (String × α)) (k : String) (v : α) : List (String × α) :=
  (k, v) :: mapDel m k

-- The data stored by the server ----------------------------------------

/-- `queue:<id>` record: `{ id_queue, messages }`. -/
structure QueueInfo where
  id_queue : String
  messages : List JObj
deriving Repr

/-- The `response` part of a sent-history record: the HTTP status and
body of the downstream response.  `validateStatus: () => true` makes
axios deliver every HTTP status as a response; on a transport-level
failure the code substitutes `{status: 0, data: {error: ...}}`. -/
structure RespInfo where
  status : Nat
  data : JVal
deriving Repr

/-- One record of `history:sent`. -/
structure SentRecord where
  timestamp : String
  data : JObj
  response : RespInfo
deriving Repr

/-- One record of `history:received`. -/
structure RecvRecord where
  timestamp : String
  data : JObj
deriving Repr

/-- The outcome of the downstream `axios.post`, an input of the model:
either a response with some HTTP status (any code — axios is told to
throw for none of them) or a transport-level failure with no response. -/
inductive DispatchResult where
  | response (status : Nat) (data : JVal)
  | transportError (msg : String)
deriving Repr

/-- Model of `new Date().toISOString()`: the wall clock is a `Nat` and
its serialization keeps distinct instants distinct. -/
def isoTime (now : Nat) : String := toString now

-- HistoryLog -----------------------------------------------------------

/-- The `while (parsedHistory.length > 1000) parsedHistory.shift()`
loop of `addToHistory`, with explicit fuel; each iteration shortens the
list, so fuel equal to the initial length always suffices. -/
def trimGo : Nat → List α → List α
  | 0, l => l
  | n + 1, l => if l.length > 1000 then trimGo n l.tail else l

/-- Evict from the front until at most 1000 records remain. -/
def trimHistory (l : List α) : List α := trimGo l.length l

/-- Net effect of `addToHistory` on one stored category: read the whole
list, push the new record, trim to 1000, and write the result back. -/
def addToHistory (l : List α) (x : α) : List α := trimHistory (l ++ [x])

def WINDOW : Nat := 60000

/-- The whole persisted/in-process state of the server: the Redis
`queue:<id>`, `status:<id>`, `history:received` and `history:sent`
records, the in-process `queueTimeouts` map (key → absolute time at
which the pending callback fires), and the draw counter of the random
id stream. -/
structure ServerState where
  queues : List (String × QueueInfo)
  statuses : List (String × String)
  histReceived : List RecvRecord
  histSent : List SentRecord
  queueTimeouts : List (String × Nat)
  randIdx : Nat
deriving Repr

/-- The state of a freshly started server with an empty store. -/
def initState : ServerState := ⟨[], [], [], [], [], 0⟩

/-- JS falsiness of a store read (`!status`): absent or empty. -/
def strFalsy : Option String → Bool
  | none => true
  | some s => s = ""

/-- `getStatus`: read `status:<id>`; if nothing is stored, persist and
return the default `online`. -/
def getStatusR (s : ServerState) (key : String) : String × ServerState :=
  if strFalsy (mapGet s.statuses key) then
    ("online", { s with statuses := mapSet s.statuses key "online" })
  else
    ((mapGet s.statuses key).getD "online", s)

/-- The `status === 'paused' || status === 'online'` test of the
webhook handler: only those two exact strings are control values. -/
def controlStatusOf : Option JVal → Option String
  | some (.str st) => if st = "paused" ∨ st = "online" then some st else none
  | _ => none

/-- One element of `messages.map(m => m.message)` as seen by
`Array.prototype.join`: `undefined` contributes an empty string. -/
def joinElem : Option JVal → String
  | none => ""
  | some v => jsToString v

/-- `messages.map(m => m.message).join('\n\n')`. -/
def concatMessages (msgs : List JObj) : String :=
  String.intercalate "\n\n" (msgs.map (fun m => joinElem (jget m "message")))

/-- The merge step of `sendAggregatedWebhook`: with more than one
buffered event, replace them by the single synthetic event
`{message: concatenated}`; otherwise keep the list as is. -/
def mergeMessages (msgs : List JObj) : List JObj :=
  if msgs.length > 1 then [[("message", JVal.str (concatMessages msgs))]]
  else msgs

/-- The envelope literal of the aggregated message:
`{id, id_queue, messages, timestamp}`. -/
def envelopeOf (now : Nat) (key : String) (qi : QueueInfo) : JObj :=
  [("id", JVal.str key),
   ("id_queue", JVal.str qi.id_queue),
   ("messages", JVal.arr ((mergeMessages qi.messages).map JVal.obj)),
   ("timestamp", JVal.str (isoTime now))]

/-- `aggregatedMessage = {id, id_queue, messages, timestamp,
...lastMessage}`: the last buffered event spread over the envelope. -/
def buildAggregate (now : Nat) (key : String) (qi : QueueInfo) : JObj :=
  objSpread (envelopeOf now key qi) (qi.messages.getLastD [])

/-- The `response` value recorded for the attempt: the HTTP response
as is, or `{status: 0, data: {error}}` built in the inner `catch` on a
transport failure. -/
def respOf : DispatchResult → RespInfo
  | .response st dta => ⟨st, dta⟩
  | .transportError msg => ⟨0, JVal.obj [("error", JVal.str msg)]⟩

/-- `sendAggregatedWebhook`: build and dispatch the aggregate, append
to `history:sent` whatever the outcome, then drop `queue:<id>` and the
timeout entry.  The success path does the two deletions after the
`status === 0` check; a transport failure reaches them through the
outer `catch` (which deletes both "to avoid an infinite loop") — the
net effect on the state is the same in both branches. -/
def sendAggregatedWebhook (now : Nat) (d : DispatchResult) (key : String)
    (s : ServerState) : ServerState :=
  match mapGet s.queues key with
  | none => s
  | some qi =>
      if qi.messages.length = 0 then s
      else
        { s with
          histSent := addToHistory s.histSent
            ⟨isoTime now, buildAggregate now key qi, respOf d⟩,
          queues := mapDel s.queues key,
          queueTimeouts := mapDel s.queueTimeouts key }

/-- `processQueue`, the timer callback: a vanished or empty queue makes
the firing a no-op apart from dropping the timeout entry; otherwise the
aggregate is sent. -/
def processQueue (now : Nat) (d : DispatchResult) (key : String)
    (s : ServerState) : ServerState :=
  match mapGet s.queues key with
  | none => { s with queueTimeouts := mapDel s.queueTimeouts key }
  | some qi =>
      if qi.messages.length = 0 then
        { s with queueTimeouts := mapDel s.queueTimeouts key }
      else sendAggregatedWebhook now d key s

/-- What POST /webhook answers. -/
inductive PostResult where
  | missingId
  | statusUpdated (id : String) (newStatus : String)
  | suppressed (id : String)
  | accepted (id : String) (idQueue : String) (data : JObj)
deriving Repr

/-- The enqueue path of the webhook handler: reuse the existing
`queue:<id>` entry, or create one with a freshly drawn `id_queue` (also
forcing the status to `online`); append the event, record it in
`history:received`, and (re)schedule the processing timer
(`scheduleQueueProcessing` cancels any pending timeout for the key and
arms a new one `WINDOW` from now). -/
def enqueueEvent (rand : Nat → String) (now : Nat) (key : String) (idv : JVal)
    (messageData : JObj) (s1 : ServerState) : ServerState × PostResult :=
  let created :=
    match mapGet s1.queues key with
    | some qi => (qi, s1)
    | none =>
        (⟨rand s1.randIdx, []⟩,
         { s1 with statuses := mapSet s1.statuses key "online",
                   randIdx := s1.randIdx + 1 })
  let qi2 : QueueInfo := ⟨created.1.id_queue, created.1.messages ++ [messageData]⟩
  let respData := objSpread [("id", idv), ("id_queue", JVal.str qi2.id_queue)] messageData
  let s3 := { created.2 with
              queues := mapSet created.2.queues key qi2,
              histReceived := addToHistory created.2.histReceived ⟨isoTime now, respData⟩,
              queueTimeouts := mapSet created.2.queueTimeouts key (now + WINDOW) }
  (s3, .accepted key qi2.id_queue respData)

/-- POST /webhook: destructure `{id, status, ...messageData}`;
reject a falsy id; a control status only updates `status:<id>`;
otherwise consult the (default-persisting) status gate, drop the event
if paused, else enqueue it. -/
def postWebhook (rand : Nat → String) (now : Nat) (body : JObj)
    (s : ServerState) : ServerState × PostResult :=
  match jget body "id" with
  | none => (s, .missingId)
  | some idv =>
      if jsFalsy idv then (s, .missingId)
      else
        let key := jsToString idv
        match controlStatusOf (jget body "status") with
        | some st =>
            ({ s with statuses := mapSet s.statuses key st },
             .statusUpdated key st)
        | none =>
            let gs := getStatusR s key
            if gs.1 = "paused" then (gs.2, .suppressed key)
            else enqueueEvent rand now key idv (objRemove body ["id", "status"]) gs.2

/-- POST /clear-logs: delete both histories, every `queue:*` and
`status:*` record, and cancel and drop all pending timeouts. -/
def clearLogs (s : ServerState) : ServerState :=
  { queues := [], statuses := [], histReceived := [], histSent := [],
    queueTimeouts := [], randIdx := s.randIdx }

-- Traces ---------------------------------------------------------------

/-- An externally observable action driving the server. -/
inductive SAction where
  | post (now : Nat) (body : JObj)
  | fire (now : Nat) (key : String) (d : DispatchResult)
  | statusReq (key : String)
  | clearAll

/-- The state transition of one action. -/
def stepA (rand : Nat → String) (s : ServerState) : SAction → ServerState
  | .post now body => (postWebhook rand now body s).1
  | .fire now key d => processQueue now d key s
  | .statusReq key => (getStatusR s key).2
  | .clearAll => clearLogs s

/-- Run a whole trace of actions from a state. -/
def runTrace (rand : Nat → String) (s : ServerState) (as : List SAction) :
    ServerState :=
  as.foldl (stepA rand) s

/-- Number of bindings a map holds for a key (a live `queueTimeouts`
entry count, for the one-timer-per-key invariant). -/
def countKey (m : List (String × α)) (k : String) : Nat :=
  m.countP (fun p => p.1 = k)

/-- A burst: the same webhook body admitted at each of the given
instants, in order. -/
def burstOf (rand : Nat → String) (body : JObj) (s : ServerState)
    (ts : List Nat) : ServerState :=
  runTrace rand s (ts.map (fun u => SAction.post u body))

/-- An event payload that carries neither the routing `id` nor a
control `status` field. -/
def cleanEvent (m : JObj) : Prop :=
  jget m "id" = none ∧ jget m "status" = none

/-- Every buffered event of every queue entry is clean. -/
def CleanQueues (s : ServerState) : Prop :=
  ∀ k qi, mapGet s.queues k = some qi → ∀ m ∈ qi.messages, cleanEvent m

/-- How the code encodes a failed dispatch attempt in a sent-history
record: `status: 0` is written only by the transport-failure catch;
every real HTTP response is stored with its own status code. -/
def recordedAsFailure (r : SentRecord) : Bool :=
  r.response.status == 0

/-- The queue epoch an admission acknowledgement carries, when it
carries one. -/
def epochOf : PostResult → Option String
  | .accepted _ idQueue _ => some idQueue
  | _ => none

-- Basic map lemmas -----------------------------------------------------

theorem mapGet_mapDel_self (m : List (String × α)) (k : String) :
    mapGet (mapDel m k) k = none := by
  induction m with
  | nil => rfl
  | cons hd tl ih =>
      obtain ⟨a, b⟩ := hd
      by_cases hak : a = k
      · simp [mapDel, hak, ih]
      · simp [mapDel, mapGet, hak, ih]

theorem mapGet_mapDel_ne (m : List (String × α)) (k k' : String) (h : k' ≠ k) :
    mapGet (mapDel m k) k' = mapGet m k' := by
  induction m with
  | nil => rfl
  | cons hd tl ih =>
      obtain ⟨a, b⟩ := hd
      have hkk' : ¬ k = k' := fun e => h e.symm
      by_cases hak : a = k
      · simp [mapDel, mapGet, hak, hkk', ih]
      · by_cases hak2 : a = k'
        · simp [mapDel, mapGet, hak, hak2, h]
        · simp [mapDel, mapGet, hak, hak2, ih]

theorem mapGet_mapSet_self (m : List (String × α)) (k : String) (v : α) :
    mapGet (mapSet m k v) k = some v := by
  simp [mapSet, mapGet]

theorem mapGet_mapSet_ne (m : List (String × α)) (k k' : String) (v : α)
    (h : k' ≠ k) : mapGet (mapSet m k v) k' = mapGet m k' := by
  simp only [mapSet, mapGet]
  rw [if_neg (fun e => h e.symm)]
  exact mapGet_mapDel_ne m k k' h

theorem trimGo_eq_drop (n : Nat) :
    ∀ l : List α, l.length - 1000 ≤ n → trimGo n l = l.drop (l.length - 1000) := by
  induction n with
  | zero =>
      intro l h
      have : l.length - 1000 = 0 := Nat.le_zero.mp h
      simp [trimGo, this]
  | succ n ih =>
      intro l h
      by_cases hl : l.length > 1000
      · have htl : l.tail.length = l.length - 1 := List.length_tail l
        have hrec : trimGo n l.tail = l.tail.drop (l.tail.length - 1000) := by
          apply ih
          omega
        have hdrop : l.tail = l.drop 1 := (List.drop_one l).symm
        have hidx : 1 + (l.length - 1 - 1000) = l.length - 1000 := by omega
        rw [trimGo, if_pos hl, hrec, htl, hdrop, List.drop_drop, hidx]
      · have : l.length - 1000 = 0 := by omega
        simp [trimGo, hl, this]

theorem trimHistory_eq_drop (l : List α) :
    trimHistory l = l.drop (l.length - 1000) :=
  trimGo_eq_drop l.length l (Nat.sub_le _ _)

theorem addToHistory_eq_drop (l : List α) (x : α) :
    addToHistory l x = (l ++ [x]).drop ((l.length + 1) - 1000) := by
  rw [addToHistory, trimHistory_eq_drop]
  have hlen : (l ++ [x]).length = l.length + 1 := by simp
  rw [hlen]

theorem addToHistory_length_le (l : List α) (x : α)
    (h : l.length ≤ 1000) : (addToHistory l x).length ≤ 1000 := by
  rw [addToHistory_eq_drop]
  simp
  omega

theorem addToHistory_of_lt (l : List α) (x : α) (h : l.length < 1000) :
    addToHistory l x = l ++ [x] := by
  rw [addToHistory_eq_drop]
  have : l.length + 1 - 1000 = 0 := by omega
  simp [this]

/-- The running contents of one category after appending, in order, a
whole list of records to an initially empty category. -/
theorem foldl_addToHistory_eq_drop (rs : List α) :
    rs.foldl addToHistory [] = rs.drop (rs.length - 1000) := by
  induction rs using List.reverseRecOn with
  | nil => simp
  | append_singleton rs x ih =>
      rw [List.foldl_append, List.foldl_cons, List.foldl_nil, ih,
        addToHistory_eq_drop]
      have hlen : (rs.drop (rs.length - 1000)).length = rs.length - (rs.length - 1000) :=
        List.length_drop _ _
      have hlenapp : (rs ++ [x]).length = rs.length + 1 := by simp
      by_cases h : rs.length ≤ 1000
      · have h0 : rs.length - 1000 = 0 := by omega
        rw [h0, List.drop_zero, hlenapp]
      · have h1000 : (rs.drop (rs.length - 1000)).length = 1000 := by omega
        rw [h1000]
        have h1 : (1000 : Nat) + 1 - 1000 = 1 := by omega
        rw [h1, List.drop_append_of_le_length (by omega), List.drop_drop]
        rw [hlenapp, List.drop_append_of_le_length (by omega)]
        have hidx : rs.length - 1000 + 1 = rs.length + 1 - 1000 := by omega
        rw [hidx]

-- Server state and handlers --------------------------------------------

/-- `AGGREGATION_WINDOW`: 60 seconds, in milliseconds. -/

theorem jget_objSet_self (o : JObj) (k : String) (v : JVal) :
    jget (objSet o k v) k = some v := by
  induction o with
  | nil => simp [objSet, jget]
  | cons hd tl ih =>
      obtain ⟨a, b⟩ := hd
      by_cases hak : a = k
      · simp [objSet, jget, hak]
      · simp [objSet, jget, hak, ih]

theorem jget_objSet_ne (o : JObj) (k k' : String) (v : JVal) (h : k' ≠ k) :
    jget (objSet o k v) k' = jget o k' := by
  have hkk' : ¬ k = k' := fun e => h e.symm
  induction o with
  | nil => simp [objSet, jget, hkk']
  | cons hd tl ih =>
      obtain ⟨a, b⟩ := hd
      by_cases hak : a = k
      · subst hak
        simp [objSet, jget, hkk']
      · by_cases hak2 : a = k'
        · simp [objSet, jget, hak, hak2, h]
        · simp [objSet, jget, hak, hak2, ih]

theorem jget_eq_none_of_not_mem_keys (o : JObj) (a : String)
    (h : a ∉ o.map Prod.fst) : jget o a = none := by
  induction o with
  | nil => rfl
  | cons hd tl ih =>
      obtain ⟨c, d⟩ := hd
      simp only [List.map_cons, List.mem_cons] at h
      push_neg at h
      have hca : ¬ c = a := fun e => h.1 e.symm
      simp only [jget, hca, if_false]
      exact ih h.2

theorem jget_objSpread_of_none (over : JObj) :
    ∀ base f, jget over f = none → jget (objSpread base over) f = jget base f := by
  induction over with
  | nil => intro base f _; rfl
  | cons hd tl ih =>
      intro base f h
      obtain ⟨a, b⟩ := hd
      simp only [jget] at h
      by_cases haf : a = f
      · simp [haf] at h
      · simp only [haf, if_false] at h
        have : objSpread base ((a, b) :: tl) = objSpread (objSet base a b) tl := rfl
        rw [this, ih _ f h, jget_objSet_ne _ _ _ _ (fun e => haf e.symm)]

theorem jget_objSpread_of_some (over : JObj) :
    ∀ base f v, (over.map Prod.fst).Nodup → jget over f = some v →
      jget (objSpread base over) f = some v := by
  induction over with
  | nil => intro base f v _ h; simp [jget] at h
  | cons hd tl ih =>
      intro base f v hnd h
      obtain ⟨a, b⟩ := hd
      have hspread : objSpread base ((a, b) :: tl) = objSpread (objSet base a b) tl := rfl
      simp only [List.map_cons, List.nodup_cons] at hnd
      by_cases haf : a = f
      · subst haf
        have hb : b = v := by
          simp [jget] at h
          exact h
        have htl : jget tl a = none := jget_eq_none_of_not_mem_keys tl a hnd.1
        rw [hspread, jget_objSpread_of_none tl _ a htl, jget_objSet_self, hb]
      · simp only [jget, haf, if_false] at h
        rw [hspread]
        exact ih _ f v hnd.2 h

theorem jget_objRemove_mem (o : JObj) (ks : List String) (k : String)
    (h : k ∈ ks) : jget (objRemove o ks) k = none := by
  induction o with
  | nil => rfl
  | cons hd tl ih =>
      obtain ⟨a, b⟩ := hd
      by_cases hm : ks.contains a
      · simp only [objRemove, hm, if_true]
        exact ih
      · have hak : ¬ a = k := by
          intro e
          subst e
          have : ks.contains a = true := by simpa using h
          exact hm this
        simp only [objRemove, hm, if_false, Bool.false_eq_true]
        simp only [jget, hak, if_false]
        exact ih

-- Handler shape lemmas -------------------------------------------------

theorem getStatusR_queues (s : ServerState) (key : String) :
    (getStatusR s key).2.queues = s.queues := by
  unfold getStatusR
  split <;> rfl

theorem getStatusR_queueTimeouts (s : ServerState) (key : String) :
    (getStatusR s key).2.queueTimeouts = s.queueTimeouts := by
  unfold getStatusR
  split <;> rfl

theorem getStatusR_randIdx (s : ServerState) (key : String) :
    (getStatusR s key).2.randIdx = s.randIdx := by
  unfold getStatusR
  split <;> rfl

theorem getStatusR_histSent (s : ServerState) (key : String) :
    (getStatusR s key).2.histSent = s.histSent := by
  unfold getStatusR
  split <;> rfl

theorem getStatusR_histReceived (s : ServerState) (key : String) :
    (getStatusR s key).2.histReceived = s.histReceived := by
  unfold getStatusR
  split <;> rfl

theorem getStatusR_fst_ne_paused (s : ServerState) (key : String)
    (h : mapGet s.statuses key ≠ some "paused") :
    (getStatusR s key).1 ≠ "paused" := by
  unfold getStatusR
  split
  · intro e
    simp at e
  · rename_i hsf
    intro e
    rcases hst : mapGet s.statuses key with _ | st
    · rw [hst] at hsf
      exact hsf rfl
    · rw [hst] at e
      simp at e
      rw [hst] at h
      rw [e] at h
      exact h rfl

theorem getStatusR_of_paused (s : ServerState) (key : String)
    (h : mapGet s.statuses key = some "paused") :
    getStatusR s key = ("paused", s) := by
  unfold getStatusR
  rw [h]
  rfl

theorem getStatusR_of_absent (s : ServerState) (key : String)
    (h : mapGet s.statuses key = none) :
    getStatusR s key =
      ("online", { s with statuses := mapSet s.statuses key "online" }) := by
  unfold getStatusR
  rw [h]
  rfl

theorem getStatusR_of_online (s : ServerState) (key : String)
    (h : mapGet s.statuses key = some "online") :
    getStatusR s key = ("online", s) := by
  unfold getStatusR
  rw [h]
  rfl

theorem getStatusR_statuses_self (s : ServerState) (key : String) :
    mapGet (getStatusR s key).2.statuses key = some (getStatusR s key).1 := by
  unfold getStatusR
  split
  · simp [mapGet_mapSet_self]
  · rename_i hsf
    rcases hst : mapGet s.statuses key with _ | st
    · rw [hst] at hsf
      exact absurd rfl hsf
    · simp [hst]

/-- The webhook handler, on the accepted path, reduces to the enqueue
step applied at the post-status-gate state. -/
theorem postWebhook_accepted_path (rand : Nat → String) (now : Nat)
    (body : JObj) (s : ServerState) (idv : JVal)
    (hid : jget body "id" = some idv)
    (hfal : jsFalsy idv = false)
    (hctl : controlStatusOf (jget body "status") = none)
    (hnp : mapGet s.statuses (jsToString idv) ≠ some "paused") :
    postWebhook rand now body s =
      enqueueEvent rand now (jsToString idv) idv
        (objRemove body ["id", "status"])
        (getStatusR s (jsToString idv)).2 := by
  unfold postWebhook
  rw [hid]
  simp only [hfal, Bool.false_eq_true, if_false, hctl]
  rw [if_neg (getStatusR_fst_ne_paused s (jsToString idv) hnp)]

/-- The enqueue step when a queue entry already exists for the key. -/
theorem enqueueEvent_existing (rand : Nat → String) (now : Nat) (key : String)
    (idv : JVal) (md : JObj) (s1 : ServerState) (qi : QueueInfo)
    (h : mapGet s1.queues key = some qi) :
    enqueueEvent rand now key idv md s1 =
      ({ s1 with
         queues := mapSet s1.queues key ⟨qi.id_queue, qi.messages ++ [md]⟩,
         histReceived := addToHistory s1.histReceived
           ⟨isoTime now, objSpread [("id", idv), ("id_queue", JVal.str qi.id_queue)] md⟩,
         queueTimeouts := mapSet s1.queueTimeouts key (now + WINDOW) },
       .accepted key qi.id_queue
         (objSpread [("id", idv), ("id_queue", JVal.str qi.id_queue)] md)) := by
  unfold enqueueEvent
  rw [h]

/-- The enqueue step when no queue entry exists: a fresh `id_queue` is
drawn, the status is forced to `online`, and the entry starts with just
the new event. -/
theorem enqueueEvent_fresh (rand : Nat → String) (now : Nat) (key : String)
    (idv : JVal) (md : JObj) (s1 : ServerState)
    (h : mapGet s1.queues key = none) :
    enqueueEvent rand now key idv md s1 =
      ({ s1 with
         statuses := mapSet s1.statuses key "online",
         randIdx := s1.randIdx + 1,
         queues := mapSet s1.queues key ⟨rand s1.randIdx, [md]⟩,
         histReceived := addToHistory s1.histReceived
           ⟨isoTime now, objSpread [("id", idv), ("id_queue", JVal.str (rand s1.randIdx))] md⟩,
         queueTimeouts := mapSet s1.queueTimeouts key (now + WINDOW) },
       .accepted key (rand s1.randIdx)
         (objSpread [("id", idv), ("id_queue", JVal.str (rand s1.randIdx))] md)) := by
  unfold enqueueEvent
  rw [h]
  rfl

/-- Firing the timer when the key holds a nonempty queue: one sent
record is appended, and both the queue entry and the timeout vanish. -/
theorem processQueue_sends (now : Nat) (d : DispatchResult) (key : String)
    (s : ServerState) (qi : QueueInfo)
    (h : mapGet s.queues key = some qi) (hne : qi.messages ≠ []) :
    processQueue now d key s =
      { s with
        histSent := addToHistory s.histSent
          ⟨isoTime now, buildAggregate now key qi, respOf d⟩,
        queues := mapDel s.queues key,
        queueTimeouts := mapDel s.queueTimeouts key } := by
  have hlen : ¬ qi.messages.length = 0 := by
    intro e
    exact hne (List.length_eq_zero.mp e)
  unfold processQueue sendAggregatedWebhook
  rw [h]
  simp [hlen]

/-- Whatever the state, a firing removes the key's timeout entry. -/
theorem processQueue_timeout_gone (now : Nat) (d : DispatchResult)
    (key : String) (s : ServerState) :
    mapGet (processQueue now d key s).queueTimeouts key = none := by
  unfold processQueue sendAggregatedWebhook
  rcases h : mapGet s.queues key with _ | qi
  · simp [mapGet_mapDel_self]
  · by_cases hlen : qi.messages.length = 0
    · simp [hlen, mapGet_mapDel_self]
    · simp [hlen, mapGet_mapDel_self]

-- Claim theorems -------------------------------------------------------

/-- C5: for each history category (`received` and `sent` both go
through the same `addToHistory`), appending evicts from the front until
at most 1000 records remain, keeping the order of the survivors (the
stored list is always the 1000-suffix of everything appended); in
particular appending 1001 records to an initially empty category leaves
exactly 1000 with only the oldest evicted. -/
theorem historyLog_bounded_fifo {α : Type} (l : List α) (x : α)
    (rs : List α) (h1001 : rs.length = 1001) :
    addToHistory l x = (l ++ [x]).drop ((l.length + 1) - 1000) ∧
    (l.length ≤ 1000 → (addToHistory l x).length ≤ 1000) ∧
    rs.foldl addToHistory [] = rs.drop 1 ∧
    (rs.foldl addToHistory []).length = 1000 := by
  have hd : rs.length - 1000 = 1 := by omega
  refine ⟨addToHistory_eq_drop l x,
          fun hl => addToHistory_length_le l x hl, ?_, ?_⟩
  · rw [foldl_addToHistory_eq_drop, hd]
  · rw [foldl_addToHistory_eq_drop, List.length_drop]
    omega

theorem historyLog_bounded_fifo_witness :
    (List.range 1001).foldl addToHistory ([] : List Nat) =
      (List.range 1001).drop 1 :=
  (historyLog_bounded_fifo [0] 1 (List.range 1001) (by simp)).2.2.1

/-- C9: reading the status of a never-seen key returns `online` and
persists that default, so the key subsequently has a stored `online`
status record. -/
theorem getStatus_default_persists (s : ServerState) (key : String)
    (h : mapGet s.statuses key = none) :
    (getStatusR s key).1 = "online" ∧
    mapGet (getStatusR s key).2.statuses key = some "online" := by
  rw [getStatusR_of_absent s key h]
  exact ⟨rfl, mapGet_mapSet_self _ _ _⟩

theorem getStatus_default_persists_witness :
    (getStatusR initState "k").1 = "online" ∧
    mapGet (getStatusR initState "k").2.statuses "k" = some "online" :=
  getStatus_default_persists initState "k" rfl

/-- C7: admitting an ordinary event (no control status in the body) for
a key whose persisted status is `paused` returns the suppressed
acknowledgement and leaves the whole state untouched — no queue entry
is created or modified, no timer armed, no history record written, no
status written. -/
theorem paused_admit_suppressed (rand : Nat → String) (now : Nat)
    (body : JObj) (s : ServerState) (idv : JVal)
    (hid : jget body "id" = some idv)
    (hfal : jsFalsy idv = false)
    (hctl : controlStatusOf (jget body "status") = none)
    (hp : mapGet s.statuses (jsToString idv) = some "paused") :
    postWebhook rand now body s = (s, .suppressed (jsToString idv)) := by
  unfold postWebhook
  rw [hid]
  simp only [hfal, Bool.false_eq_true, if_false, hctl]
  rw [getStatusR_of_paused s _ hp]
  rfl

theorem paused_admit_suppressed_witness :
    postWebhook (fun n => toString n) 7 [("id", JVal.str "k"), ("x", JVal.num 1)]
      (runTrace (fun n => toString n) initState
        [.post 0 [("id", JVal.str "k"), ("status", JVal.str "paused")]]) =
    (runTrace (fun n => toString n) initState
        [.post 0 [("id", JVal.str "k"), ("status", JVal.str "paused")]],
     .suppressed "k") :=
  paused_admit_suppressed _ 7 _ _ (JVal.str "k") rfl rfl rfl rfl

/-- C2 counterexample: the claim says the envelope-reserved fields win
on a name collision, but `aggregatedMessage` spreads `...lastMessage`
AFTER the envelope fields, so the last event's fields win.  Admitting
`{id:"k", message:"hi", timestamp:"EVT"}` and letting the timer fire at
instant 5 produces a sent-history aggregate whose `timestamp` field is
the event's `"EVT"`, not the envelope's serialization of instant 5. -/
theorem envelope_precedence_cex :
    (runTrace (fun n => toString n) initState
       [.post 0 [("id", JVal.str "k"), ("message", JVal.str "hi"),
                 ("timestamp", JVal.str "EVT")],
        .fire 5 "k" (.response 200 (JVal.obj []))]).histSent.map
      (fun r => jget r.data "timestamp") = [some (JVal.str "EVT")] ∧
    isoTime 5 ≠ "EVT" := by
  exact ⟨rfl, by decide⟩

/-- C2 amended: in every aggregate produced by a flush, the LAST
buffered event's fields take precedence over the envelope-reserved
fields (`id`, `id_queue`, `messages`, `timestamp`) when names collide;
envelope fields survive only where the last event has no field of that
name; and fields other than `message` and the reserved names are taken
only from the last event, never merged across events. -/
theorem aggregate_last_event_precedence (now : Nat) (d : DispatchResult)
    (key : String) (s : ServerState) (qi : QueueInfo) (last : JObj)
    (h : mapGet s.queues key = some qi)
    (hne : qi.messages ≠ [])
    (hlast : qi.messages.getLastD [] = last)
    (hnd : (last.map Prod.fst).Nodup) :
    (∀ f v, jget last f = some v → jget (buildAggregate now key qi) f = some v) ∧
    (∀ f, jget last f = none →
       jget (buildAggregate now key qi) f = jget (envelopeOf now key qi) f) ∧
    (∀ f, f ∉ (["id", "id_queue", "messages", "timestamp"] : List String) →
       jget (buildAggregate now key qi) f = jget last f) ∧
    (processQueue now d key s).histSent =
      addToHistory s.histSent ⟨isoTime now, buildAggregate now key qi, respOf d⟩ := by
  have hb : buildAggregate now key qi = objSpread (envelopeOf now key qi) last := by
    rw [buildAggregate, hlast]
  refine ⟨?_, ?_, ?_, ?_⟩
  · intro f v hf
    rw [hb]
    exact jget_objSpread_of_some last _ f v hnd hf
  · intro f hf
    rw [hb]
    exact jget_objSpread_of_none last _ f hf
  · intro f hf
    rcases hlf : jget last f with _ | v
    · have he : jget (envelopeOf now key qi) f = none := by
        apply jget_eq_none_of_not_mem_keys
        simpa [envelopeOf] using hf
      rw [hb, jget_objSpread_of_none last _ f hlf, he]
    · rw [hb, jget_objSpread_of_some last _ f v hnd hlf]
  · rw [processQueue_sends now d key s qi h hne]

theorem aggregate_last_event_precedence_witness :
    jget (buildAggregate 5 "k"
      ⟨"0", [[("message", JVal.str "hi"), ("timestamp", JVal.str "EVT")]]⟩)
      "timestamp" = some (JVal.str "EVT") :=
  (aggregate_last_event_precedence 5 (.response 200 (JVal.obj [])) "k"
    ⟨[("k", ⟨"0", [[("message", JVal.str "hi"), ("timestamp", JVal.str "EVT")]]⟩)],
     [("k", "online")], [], [], [], 1⟩
    ⟨"0", [[("message", JVal.str "hi"), ("timestamp", JVal.str "EVT")]]⟩
    [("message", JVal.str "hi"), ("timestamp", JVal.str "EVT")]
    rfl (by simp) rfl (by decide)).1 "timestamp" (JVal.str "EVT") rfl

/-- C1: when a flush finds more than one buffered event, the merge
replaces them by exactly one synthetic event whose `message` is the
events' `message` fields joined, in insertion order, by a blank line —
an event without a `message` field contributing an empty string — and
the dispatched/logged aggregate carries that single synthetic event in
its `messages` envelope field. -/
theorem merge_concatenates_messages (now : Nat) (d : DispatchResult)
    (key : String) (s : ServerState) (qi : QueueInfo)
    (h : mapGet s.queues key = some qi)
    (hgt : qi.messages.length > 1)
    (hlast : jget (qi.messages.getLastD []) "messages" = none) :
    mergeMessages qi.messages =
      [[("message", JVal.str (concatMessages qi.messages))]] ∧
    concatMessages qi.messages =
      String.intercalate "\n\n"
        (qi.messages.map (fun m => joinElem (jget m "message"))) ∧
    jget (buildAggregate now key qi) "messages" =
      some (JVal.arr [JVal.obj
        [("message", JVal.str (concatMessages qi.messages))]]) ∧
    (processQueue now d key s).histSent =
      addToHistory s.histSent ⟨isoTime now, buildAggregate now key qi, respOf d⟩ := by
  have hne : qi.messages ≠ [] := by
    intro e
    rw [e] at hgt
    simp at hgt
  have hmerge : mergeMessages qi.messages =
      [[("message", JVal.str (concatMessages qi.messages))]] := by
    unfold mergeMessages
    rw [if_pos hgt]
  refine ⟨hmerge, rfl, ?_, ?_⟩
  · unfold buildAggregate
    rw [jget_objSpread_of_none (qi.messages.getLastD []) _ "messages" hlast]
    unfold envelopeOf
    rw [hmerge]
    rfl
  · rw [processQueue_sends now d key s qi h hne]

theorem merge_concatenates_messages_witness :
    jget (buildAggregate 2 "k"
      ⟨"0", [[("message", JVal.str "a")], [("message", JVal.str "b")]]⟩)
      "messages" =
    some (JVal.arr [JVal.obj [("message", JVal.str "a\n\nb")]]) :=
  (merge_concatenates_messages 2 (.response 200 (JVal.obj [])) "k"
    (runTrace (fun n => toString n) initState
      [.post 0 [("id", JVal.str "k"), ("message", JVal.str "a")],
       .post 1 [("id", JVal.str "k"), ("message", JVal.str "b")]])
    ⟨"0", [[("message", JVal.str "a")], [("message", JVal.str "b")]]⟩
    rfl (by decide) rfl).2.2.1

/-- C4: every flush that reaches dispatch appends one record to the
`sent` history whether or not the attempt succeeded; a downstream
response of any HTTP status is stored with that status — a completed
attempt, not a failure in the code's encoding — and only a
transport-level failure with no response at all is recorded with the
failure marker `status: 0`. -/
theorem sent_logged_unconditionally (now : Nat) (key : String)
    (s : ServerState) (qi : QueueInfo)
    (h : mapGet s.queues key = some qi) (hne : qi.messages ≠ []) :
    (∀ st dta, (processQueue now (.response st dta) key s).histSent =
        addToHistory s.histSent
          ⟨isoTime now, buildAggregate now key qi, ⟨st, dta⟩⟩) ∧
    (∀ msg, (processQueue now (.transportError msg) key s).histSent =
        addToHistory s.histSent
          ⟨isoTime now, buildAggregate now key qi,
           ⟨0, JVal.obj [("error", JVal.str msg)]⟩⟩) ∧
    (∀ st dta, st ≠ 0 →
        recordedAsFailure ⟨isoTime now, buildAggregate now key qi,
          respOf (.response st dta)⟩ = false) ∧
    (∀ msg, recordedAsFailure ⟨isoTime now, buildAggregate now key qi,
          respOf (.transportError msg)⟩ = true) := by
  refine ⟨?_, ?_, ?_, ?_⟩
  · intro st dta
    rw [processQueue_sends now _ key s qi h hne]
    rfl
  · intro msg
    rw [processQueue_sends now _ key s qi h hne]
    rfl
  · intro st dta hst
    simp [recordedAsFailure, respOf, hst]
  · intro msg
    simp [recordedAsFailure, respOf]

theorem sent_logged_unconditionally_witness :
    (processQueue 9 (.transportError "ECONNREFUSED") "k"
       ⟨[("k", ⟨"q", [[("message", JVal.str "a")]]⟩)], [], [], [],
        [("k", 60000)], 0⟩).histSent =
      addToHistory ([] : List SentRecord)
        ⟨isoTime 9, buildAggregate 9 "k" ⟨"q", [[("message", JVal.str "a")]]⟩,
         ⟨0, JVal.obj [("error", JVal.str "ECONNREFUSED")]⟩⟩ :=
  (sent_logged_unconditionally 9 "k"
    ⟨[("k", ⟨"q", [[("message", JVal.str "a")]]⟩)], [], [], [],
     [("k", 60000)], 0⟩
    ⟨"q", [[("message", JVal.str "a")]]⟩ rfl (by simp)).2.1 "ECONNREFUSED"

/-- C3: a flush that reaches dispatch clears the key's queue entry and
timeout unconditionally — for every dispatch outcome, response of any
status or transport failure alike — changing neither the statuses nor
the id-draw counter, so nothing is retried or re-buffered; and the next
admitted event for the key finds no entry and starts a fresh cycle with
a newly drawn epoch holding only the new event. -/
theorem flush_clears_unconditionally (now : Nat) (d : DispatchResult)
    (key : String) (s : ServerState) (qi : QueueInfo)
    (h : mapGet s.queues key = some qi) (hne : qi.messages ≠ []) :
    mapGet (processQueue now d key s).queues key = none ∧
    mapGet (processQueue now d key s).queueTimeouts key = none ∧
    (processQueue now d key s).statuses = s.statuses ∧
    (processQueue now d key s).randIdx = s.randIdx ∧
    ∀ (rand : Nat → String) (now' : Nat) (body : JObj) (idv : JVal),
      jget body "id" = some idv → jsFalsy idv = false →
      controlStatusOf (jget body "status") = none →
      jsToString idv = key →
      mapGet s.statuses key ≠ some "paused" →
      mapGet ((postWebhook rand now' body (processQueue now d key s)).1).queues
          key =
        some ⟨rand s.randIdx, [objRemove body ["id", "status"]]⟩ := by
  have hs' := processQueue_sends now d key s qi h hne
  refine ⟨?_, ?_, ?_, ?_, ?_⟩
  · rw [hs']
    exact mapGet_mapDel_self _ _
  · rw [hs']
    exact mapGet_mapDel_self _ _
  · rw [hs']
  · rw [hs']
  · intro rand now' body idv hid hfal hctl hkey hnp
    subst hkey
    have hnp' : mapGet (processQueue now d (jsToString idv) s).statuses
        (jsToString idv) ≠ some "paused" := by
      rw [hs']
      exact hnp
    rw [postWebhook_accepted_path rand now' body _ idv hid hfal hctl hnp']
    have hq2 : mapGet (getStatusR (processQueue now d (jsToString idv) s)
        (jsToString idv)).2.queues (jsToString idv) = none := by
      rw [getStatusR_queues, hs']
      exact mapGet_mapDel_self _ _
    rw [enqueueEvent_fresh _ _ _ _ _ _ hq2]
    have hr : (getStatusR (processQueue now d (jsToString idv) s)
        (jsToString idv)).2.randIdx = s.randIdx := by
      rw [getStatusR_randIdx, hs']
    dsimp only
    rw [mapGet_mapSet_self, hr]

theorem flush_clears_unconditionally_witness :
    mapGet ((postWebhook (fun n => toString n) 70000
      [("id", JVal.str "k"), ("message", JVal.str "b")]
      (processQueue 60001 (.transportError "ETIMEDOUT") "k"
        (runTrace (fun n => toString n) initState
          [.post 0 [("id", JVal.str "k"), ("message", JVal.str "a")]]))).1).queues
      "k" =
    some ⟨"1", [[("message", JVal.str "b")]]⟩ :=
  (flush_clears_unconditionally 60001 (.transportError "ETIMEDOUT") "k"
    (runTrace (fun n => toString n) initState
      [.post 0 [("id", JVal.str "k"), ("message", JVal.str "a")]])
    ⟨"0", [[("message", JVal.str "a")]]⟩ rfl (by simp)).2.2.2.2
    (fun n => toString n) 70000
    [("id", JVal.str "k"), ("message", JVal.str "b")] (JVal.str "k")
    rfl rfl rfl rfl (by decide)

/-- Full effect of an accepted admission that finds no queue entry:
fresh epoch drawn from the stream, new entry holding just the event,
draw counter advanced, status online, timer armed. -/
theorem postWebhook_fresh_effects (rand : Nat → String) (now : Nat)
    (body : JObj) (s : ServerState) (idv : JVal)
    (hid : jget body "id" = some idv)
    (hfal : jsFalsy idv = false)
    (hctl : controlStatusOf (jget body "status") = none)
    (hnp : mapGet s.statuses (jsToString idv) ≠ some "paused")
    (hq : mapGet s.queues (jsToString idv) = none) :
    (postWebhook rand now body s).2 =
      .accepted (jsToString idv) (rand s.randIdx)
        (objSpread [("id", idv), ("id_queue", JVal.str (rand s.randIdx))]
          (objRemove body ["id", "status"])) ∧
    mapGet ((postWebhook rand now body s).1).queues (jsToString idv) =
      some ⟨rand s.randIdx, [objRemove body ["id", "status"]]⟩ ∧
    ((postWebhook rand now body s).1).randIdx = s.randIdx + 1 ∧
    mapGet ((postWebhook rand now body s).1).statuses (jsToString idv) =
      some "online" ∧
    ((postWebhook rand now body s).1).queueTimeouts =
      mapSet s.queueTimeouts (jsToString idv) (now + WINDOW) := by
  have hpost1 := postWebhook_accepted_path rand now body s idv hid hfal hctl hnp
  have hq1 : mapGet (getStatusR s (jsToString idv)).2.queues (jsToString idv) =
      none := by
    rw [getStatusR_queues]
    exact hq
  have henq := enqueueEvent_fresh rand now (jsToString idv) idv
    (objRemove body ["id", "status"]) (getStatusR s (jsToString idv)).2 hq1
  have hgr : (getStatusR s (jsToString idv)).2.randIdx = s.randIdx :=
    getStatusR_randIdx s _
  have hgt : (getStatusR s (jsToString idv)).2.queueTimeouts =
      s.queueTimeouts := getStatusR_queueTimeouts s _
  rw [hpost1, henq]
  refine ⟨?_, ?_, ?_, ?_, ?_⟩
  · dsimp only
    rw [hgr]
  · dsimp only
    rw [mapGet_mapSet_self, hgr]
  · dsimp only
    rw [hgr]
  · dsimp only
    rw [mapGet_mapSet_self]
  · dsimp only
    rw [hgt]

/-- C8: an admission that finds no queue entry for its key creates one
whose epoch is the next draw of the id stream, appends the event to the
fresh entry, and returns that epoch to the caller; after the cycle is
flushed, the next admission for the key draws the following token, so
the two cycles' epochs are distinct whenever those two draws differ
(the code relies on `Math.random` never repeating for this). -/
theorem fresh_epoch_per_cycle (rand : Nat → String) (t1 t2 t3 : Nat)
    (body body' : JObj) (s : ServerState) (idv idv' : JVal)
    (d : DispatchResult)
    (hid : jget body "id" = some idv) (hfal : jsFalsy idv = false)
    (hctl : controlStatusOf (jget body "status") = none)
    (hq : mapGet s.queues (jsToString idv) = none)
    (hready : mapGet s.statuses (jsToString idv) = none ∨
              mapGet s.statuses (jsToString idv) = some "online")
    (hid' : jget body' "id" = some idv') (hfal' : jsFalsy idv' = false)
    (hctl' : controlStatusOf (jget body' "status") = none)
    (hkey' : jsToString idv' = jsToString idv)
    (hrr : rand s.randIdx ≠ rand (s.randIdx + 1)) :
    epochOf (postWebhook rand t1 body s).2 = some (rand s.randIdx) ∧
    mapGet ((postWebhook rand t1 body s).1).queues (jsToString idv) =
      some ⟨rand s.randIdx, [objRemove body ["id", "status"]]⟩ ∧
    ((postWebhook rand t1 body s).1).randIdx = s.randIdx + 1 ∧
    epochOf (postWebhook rand t3 body'
        (processQueue t2 d (jsToString idv)
          (postWebhook rand t1 body s).1)).2 = some (rand (s.randIdx + 1)) ∧
    epochOf (postWebhook rand t1 body s).2 ≠
      epochOf (postWebhook rand t3 body'
        (processQueue t2 d (jsToString idv)
          (postWebhook rand t1 body s).1)).2 := by
  have hnp : mapGet s.statuses (jsToString idv) ≠ some "paused" := by
    rcases hready with h1 | h1 <;> rw [h1] <;> simp
  obtain ⟨he1, hq1, hr1, hs1, _⟩ :=
    postWebhook_fresh_effects rand t1 body s idv hid hfal hctl hnp hq
  have hfire := processQueue_sends t2 d (jsToString idv)
    (postWebhook rand t1 body s).1
    ⟨rand s.randIdx, [objRemove body ["id", "status"]]⟩ hq1 (by simp)
  have hq2 : mapGet (processQueue t2 d (jsToString idv)
      (postWebhook rand t1 body s).1).queues (jsToString idv) = none := by
    rw [hfire]
    exact mapGet_mapDel_self _ _
  have hs2 : mapGet (processQueue t2 d (jsToString idv)
      (postWebhook rand t1 body s).1).statuses (jsToString idv) =
      some "online" := by
    rw [hfire]
    exact hs1
  have hr2 : (processQueue t2 d (jsToString idv)
      (postWebhook rand t1 body s).1).randIdx = s.randIdx + 1 := by
    rw [hfire]
    exact hr1
  have hnp2 : mapGet (processQueue t2 d (jsToString idv)
      (postWebhook rand t1 body s).1).statuses (jsToString idv') ≠
      some "paused" := by
    rw [hkey', hs2]
    simp
  obtain ⟨he3, _, _, _, _⟩ :=
    postWebhook_fresh_effects rand t3 body'
      (processQueue t2 d (jsToString idv) (postWebhook rand t1 body s).1)
      idv' hid' hfal' hctl' hnp2 (by rw [hkey']; exact hq2)
  refine ⟨?_, hq1, hr1, ?_, ?_⟩
  · rw [he1]
    rfl
  · rw [he3]
    simp only [epochOf, hr2]
  · rw [he1, he3]
    simp only [epochOf, hr2]
    intro e
    injection e with e'
    exact hrr e'

theorem fresh_epoch_per_cycle_witness :
    epochOf (postWebhook (fun n => toString n) 0
      [("id", JVal.str "k"), ("message", JVal.str "a")] initState).2 =
      some "0" ∧
    epochOf (postWebhook (fun n => toString n) 70000
      [("id", JVal.str "k"), ("message", JVal.str "c")]
      (processQueue 60001 (.response 200 (JVal.obj []))
        "k"
        (postWebhook (fun n => toString n) 0
          [("id", JVal.str "k"), ("message", JVal.str "a")] initState).1)).2 =
      some "1" :=
  ⟨(fresh_epoch_per_cycle (fun n => toString n) 0 60001 70000
      [("id", JVal.str "k"), ("message", JVal.str "a")]
      [("id", JVal.str "k"), ("message", JVal.str "c")]
      initState (JVal.str "k") (JVal.str "k") (.response 200 (JVal.obj []))
      rfl rfl rfl rfl (Or.inl rfl) rfl rfl rfl rfl (by decide)).1,
   (fresh_epoch_per_cycle (fun n => toString n) 0 60001 70000
      [("id", JVal.str "k"), ("message", JVal.str "a")]
      [("id", JVal.str "k"), ("message", JVal.str "c")]
      initState (JVal.str "k") (JVal.str "k") (.response 200 (JVal.obj []))
      rfl rfl rfl rfl (Or.inl rfl) rfl rfl rfl rfl (by decide)).2.2.2.1⟩

-- Timer lemmas ---------------------------------------------------------

theorem countKey_mapDel_self (m : List (String × α)) (k : String) :
    countKey (mapDel m k) k = 0 := by
  induction m with
  | nil => rfl
  | cons hd tl ih =>
      obtain ⟨a, b⟩ := hd
      by_cases hak : a = k
      · simpa [mapDel, hak] using ih
      · simpa [mapDel, countKey, List.countP_cons, hak] using ih

theorem countKey_mapSet_self (m : List (String × α)) (k : String) (v : α) :
    countKey (mapSet m k v) k = 1 := by
  have h0 := countKey_mapDel_self m k
  simp only [countKey] at h0 ⊢
  simp [mapSet, List.countP_cons, h0]

theorem getStatusR_fst_of_ready (s : ServerState) (key : String)
    (hready : mapGet s.statuses key = none ∨
              mapGet s.statuses key = some "online") :
    (getStatusR s key).1 = "online" := by
  rcases hready with h1 | h1
  · rw [getStatusR_of_absent s key h1]
  · rw [getStatusR_of_online s key h1]

/-- An accepted admission (whether or not a queue entry already exists)
re-arms the key's single timer slot to fire `WINDOW` from now, and
leaves the key's stored status `online`. -/
theorem postWebhook_accepted_effects (rand : Nat → String) (now : Nat)
    (body : JObj) (s : ServerState) (idv : JVal)
    (hid : jget body "id" = some idv)
    (hfal : jsFalsy idv = false)
    (hctl : controlStatusOf (jget body "status") = none)
    (hready : mapGet s.statuses (jsToString idv) = none ∨
              mapGet s.statuses (jsToString idv) = some "online") :
    ((postWebhook rand now body s).1).queueTimeouts =
      mapSet s.queueTimeouts (jsToString idv) (now + WINDOW) ∧
    mapGet ((postWebhook rand now body s).1).statuses (jsToString idv) =
      some "online" := by
  have hnp : mapGet s.statuses (jsToString idv) ≠ some "paused" := by
    rcases hready with h1 | h1 <;> rw [h1] <;> simp
  rw [postWebhook_accepted_path rand now body s idv hid hfal hctl hnp]
  have hfst := getStatusR_fst_of_ready s (jsToString idv) hready
  rcases hq : mapGet s.queues (jsToString idv) with _ | qi
  · have hq' : mapGet (getStatusR s (jsToString idv)).2.queues
        (jsToString idv) = none := by
      rw [getStatusR_queues]
      exact hq
    rw [enqueueEvent_fresh _ _ _ _ _ _ hq']
    refine ⟨?_, ?_⟩
    · dsimp only
      rw [getStatusR_queueTimeouts]
    · dsimp only
      rw [mapGet_mapSet_self]
  · have hq' : mapGet (getStatusR s (jsToString idv)).2.queues
        (jsToString idv) = some qi := by
      rw [getStatusR_queues]
      exact hq
    rw [enqueueEvent_existing _ _ _ _ _ _ qi hq']
    refine ⟨?_, ?_⟩
    · dsimp only
      rw [getStatusR_queueTimeouts]
    · dsimp only
      rw [getStatusR_statuses_self, hfst]

theorem burstOf_cons (rand : Nat → String) (body : JObj) (s : ServerState)
    (t : Nat) (rest : List Nat) :
    burstOf rand body s (t :: rest) =
      burstOf rand body ((postWebhook rand t body s).1) rest := rfl

theorem burstOf_nil (rand : Nat → String) (body : JObj) (s : ServerState) :
    burstOf rand body s [] = s := rfl

/-- Effect of a whole burst of admissions of the same body: the timer
slot holds exactly one binding for the key, set to fire `WINDOW` after
the last admission, and the key's status is stored `online`. -/
theorem burst_effects (rand : Nat → String) (body : JObj) (idv : JVal)
    (hid : jget body "id" = some idv)
    (hfal : jsFalsy idv = false)
    (hctl : controlStatusOf (jget body "status") = none) :
    ∀ (ts : List Nat) (hne : ts ≠ []) (s : ServerState),
      (mapGet s.statuses (jsToString idv) = none ∨
       mapGet s.statuses (jsToString idv) = some "online") →
      mapGet (burstOf rand body s ts).queueTimeouts (jsToString idv) =
        some (ts.getLast hne + WINDOW) ∧
      countKey (burstOf rand body s ts).queueTimeouts (jsToString idv) = 1 ∧
      mapGet (burstOf rand body s ts).statuses (jsToString idv) =
        some "online" := by
  intro ts
  induction ts with
  | nil => intro hne; exact absurd rfl hne
  | cons t rest ih =>
      intro hne s hready
      obtain ⟨ht, hs⟩ :=
        postWebhook_accepted_effects rand t body s idv hid hfal hctl hready
      by_cases hrne : rest = []
      · subst hrne
        rw [burstOf_cons, burstOf_nil]
        refine ⟨?_, ?_, hs⟩
        · rw [ht]
          exact mapGet_mapSet_self _ _ _
        · rw [ht]
          exact countKey_mapSet_self _ _ _
      · rw [burstOf_cons]
        have hgl : (t :: rest).getLast hne = rest.getLast hrne :=
          List.getLast_cons hrne
        rw [hgl]
        exact ih hrne _ (Or.inr hs)

/-- C6: at most one pending timer per key — a burst of admissions of
the same body leaves exactly one `queueTimeouts` binding for the key,
set to fire `WINDOW` after the last admission; after each prefix of the
burst the pending instant is the latest admission's time plus `WINDOW`,
and (with consecutive admissions spaced less than `WINDOW` apart) each
next admission occurs strictly before the pending instant, so the
cancelled handle had not fired; the firing itself consumes the handle,
yielding exactly one eventual firing timed from the last admission. -/
theorem debounce_one_timer_per_key (rand : Nat → String) (body : JObj)
    (s : ServerState) (idv : JVal) (ts : List Nat)
    (hid : jget body "id" = some idv)
    (hfal : jsFalsy idv = false)
    (hctl : controlStatusOf (jget body "status") = none)
    (hready : mapGet s.statuses (jsToString idv) = none ∨
              mapGet s.statuses (jsToString idv) = some "online")
    (hne : ts ≠ [])
    (hchain : List.Chain' (fun a b => b < a + WINDOW) ts) :
    mapGet (burstOf rand body s ts).queueTimeouts (jsToString idv) =
      some (ts.getLast hne + WINDOW) ∧
    countKey (burstOf rand body s ts).queueTimeouts (jsToString idv) = 1 ∧
    (∀ i : Nat, ∀ h1 : i + 1 < ts.length,
      mapGet (burstOf rand body s (ts.take (i + 1))).queueTimeouts
          (jsToString idv) =
        some (ts.get ⟨i, by omega⟩ + WINDOW) ∧
      ts.get ⟨i + 1, h1⟩ < ts.get ⟨i, by omega⟩ + WINDOW) ∧
    (∀ now' d, mapGet (processQueue now' d (jsToString idv)
        (burstOf rand body s ts)).queueTimeouts (jsToString idv) = none) := by
  obtain ⟨h1, h2, _⟩ := burst_effects rand body idv hid hfal hctl ts hne s hready
  refine ⟨h1, h2, ?_, ?_⟩
  · intro i hi1
    have hlen : (ts.take (i + 1)).length = i + 1 := by
      rw [List.length_take]
      omega
    have htne : ts.take (i + 1) ≠ [] := by
      intro e
      rw [e] at hlen
      simp at hlen
    obtain ⟨g1, _, _⟩ :=
      burst_effects rand body idv hid hfal hctl (ts.take (i + 1)) htne s hready
    have hglast : (ts.take (i + 1)).getLast htne = ts.get ⟨i, by omega⟩ := by
      rw [List.getLast_eq_getElem]
      simp [hlen, List.getElem_take]
    constructor
    · rw [g1, hglast]
    · exact List.chain'_iff_get.mp hchain i (by omega)
  · intro now' d
    exact processQueue_timeout_gone now' d _ _

theorem debounce_one_timer_per_key_witness :
    mapGet (burstOf (fun n => toString n) [("id", JVal.str "k")] initState
      [0, 10]).queueTimeouts "k" = some 60010 ∧
    countKey (burstOf (fun n => toString n) [("id", JVal.str "k")] initState
      [0, 10]).queueTimeouts "k" = 1 :=
  ⟨(debounce_one_timer_per_key (fun n => toString n) [("id", JVal.str "k")]
      initState (JVal.str "k") [0, 10] rfl rfl rfl (Or.inl rfl) (by simp)
      (List.Chain.cons (by norm_num [WINDOW]) List.Chain.nil)).1,
   (debounce_one_timer_per_key (fun n => toString n) [("id", JVal.str "k")]
      initState (JVal.str "k") [0, 10] rfl rfl rfl (Or.inl rfl) (by simp)
      (List.Chain.cons (by norm_num [WINDOW]) List.Chain.nil)).2.1⟩

-- Cleanliness of buffered events ---------------------------------------

theorem cleanEvent_objRemove (body : JObj) :
    cleanEvent (objRemove body ["id", "status"]) :=
  ⟨jget_objRemove_mem body _ "id" (by simp),
   jget_objRemove_mem body _ "status" (by simp)⟩

theorem cleanQueues_of_queues_eq (s s' : ServerState)
    (h : s'.queues = s.queues) (hcl : CleanQueues s) : CleanQueues s' := by
  intro k qi hk
  rw [h] at hk
  exact hcl k qi hk

theorem enqueueEvent_clean (rand : Nat → String) (now : Nat) (key : String)
    (idv : JVal) (md : JObj) (s1 : ServerState)
    (hmd : cleanEvent md) (hcl : CleanQueues s1) :
    CleanQueues (enqueueEvent rand now key idv md s1).1 := by
  rcases hq : mapGet s1.queues key with _ | qi
  · rw [enqueueEvent_fresh _ _ _ _ _ _ hq]
    intro k qik hk m hm
    dsimp only at hk
    by_cases hkk : k = key
    · subst hkk
      rw [mapGet_mapSet_self] at hk
      injection hk with hk'
      subst hk'
      simp at hm
      subst hm
      exact hmd
    · rw [mapGet_mapSet_ne _ _ _ _ hkk] at hk
      exact hcl k qik hk m hm
  · rw [enqueueEvent_existing _ _ _ _ _ _ qi hq]
    intro k qik hk m hm
    dsimp only at hk
    by_cases hkk : k = key
    · subst hkk
      rw [mapGet_mapSet_self] at hk
      injection hk with hk'
      subst hk'
      rcases List.mem_append.mp hm with hm1 | hm2
      · exact hcl _ qi hq m hm1
      · simp at hm2
        subst hm2
        exact hmd
    · rw [mapGet_mapSet_ne _ _ _ _ hkk] at hk
      exact hcl k qik hk m hm

theorem postWebhook_clean (rand : Nat → String) (now : Nat) (body : JObj)
    (s : ServerState) (hcl : CleanQueues s) :
    CleanQueues ((postWebhook rand now body s).1) := by
  unfold postWebhook
  rcases hid : jget body "id" with _ | idv
  · exact hcl
  · simp only [hid]
    by_cases hfal : jsFalsy idv = true
    · simp only [hfal, if_true]
      exact hcl
    · simp only [Bool.not_eq_true] at hfal
      simp only [hfal, Bool.false_eq_true, if_false]
      rcases hctl : controlStatusOf (jget body "status") with _ | st
      · simp only [hctl]
        by_cases hp : (getStatusR s (jsToString idv)).1 = "paused"
        · simp only [hp, if_true]
          exact cleanQueues_of_queues_eq s _ (getStatusR_queues s _) hcl
        · simp only [hp, if_false]
          exact enqueueEvent_clean _ _ _ _ _ _ (cleanEvent_objRemove body)
            (cleanQueues_of_queues_eq s _ (getStatusR_queues s _) hcl)
      · simp only [hctl]
        exact fun k qi hk => hcl k qi hk

theorem processQueue_queues_shape (now : Nat) (d : DispatchResult)
    (key : String) (s : ServerState) :
    (processQueue now d key s).queues = s.queues ∨
    (processQueue now d key s).queues = mapDel s.queues key := by
  unfold processQueue sendAggregatedWebhook
  rcases hq : mapGet s.queues key with _ | qi
  · simp only [hq]
    left
    trivial
  · simp only [hq]
    by_cases hlen : qi.messages.length = 0
    · simp only [hlen, if_true]
      left
      trivial
    · simp only [hlen, if_false]
      right
      trivial

theorem stepA_clean (rand : Nat → String) (s : ServerState) (a : SAction)
    (hcl : CleanQueues s) : CleanQueues (stepA rand s a) := by
  cases a with
  | post now body => exact postWebhook_clean rand now body s hcl
  | fire now key d =>
      rcases processQueue_queues_shape now d key s with h | h
      · exact cleanQueues_of_queues_eq s _ h hcl
      · intro k qik hk m hm
        have hk' : mapGet (mapDel s.queues key) k = some qik := by
          rw [← h]
          exact hk
        by_cases hkk : k = key
        · subst hkk
          rw [mapGet_mapDel_self] at hk'
          cases hk'
        · rw [mapGet_mapDel_ne _ _ _ hkk] at hk'
          exact hcl k qik hk' m hm
  | statusReq key =>
      exact cleanQueues_of_queues_eq s _ (getStatusR_queues s key) hcl
  | clearAll =>
      intro k qik hk
      simp [clearLogs, mapGet] at hk

theorem runTrace_clean (rand : Nat → String) (as : List SAction) :
    ∀ s : ServerState, CleanQueues s → CleanQueues (runTrace rand s as) := by
  induction as with
  | nil => exact fun s h => h
  | cons a rest ih =>
      intro s h
      exact ih _ (stepA_clean rand s a h)

theorem initState_clean : CleanQueues initState := by
  intro k qi hk
  cases hk

theorem mergeMessages_clean (msgs : List JObj)
    (h : ∀ m ∈ msgs, cleanEvent m) :
    ∀ m ∈ mergeMessages msgs, cleanEvent m := by
  unfold mergeMessages
  by_cases hlen : msgs.length > 1
  · simp only [hlen, if_true]
    intro m hm
    simp at hm
    subst hm
    exact ⟨rfl, rfl⟩
  · simp only [hlen, if_false]
    exact h

/-- An accepted admission leaves a queue entry for the key whose last
buffered event is exactly the body stripped of `id` and `status`. -/
theorem postWebhook_enqueues_last (rand : Nat → String) (now : Nat)
    (body : JObj) (s : ServerState) (idv : JVal)
    (hid : jget body "id" = some idv) (hfal : jsFalsy idv = false)
    (hctl : controlStatusOf (jget body "status") = none)
    (hnp : mapGet s.statuses (jsToString idv) ≠ some "paused") :
    ∃ qiNew, mapGet ((postWebhook rand now body s).1).queues (jsToString idv) =
        some qiNew ∧
      qiNew.messages ≠ [] ∧
      qiNew.messages.getLastD [] = objRemove body ["id", "status"] := by
  rw [postWebhook_accepted_path rand now body s idv hid hfal hctl hnp]
  rcases hq : mapGet (getStatusR s (jsToString idv)).2.queues (jsToString idv)
    with _ | qi0
  · rw [enqueueEvent_fresh _ _ _ _ _ _ hq]
    refine ⟨⟨rand (getStatusR s (jsToString idv)).2.randIdx,
             [objRemove body ["id", "status"]]⟩, ?_, by simp, rfl⟩
    dsimp only
    exact mapGet_mapSet_self _ _ _
  · rw [enqueueEvent_existing _ _ _ _ _ _ qi0 hq]
    refine ⟨⟨qi0.id_queue,
             qi0.messages ++ [objRemove body ["id", "status"]]⟩, ?_, by simp, ?_⟩
    · dsimp only
      exact mapGet_mapSet_self _ _ _
    · simp [List.getLastD_concat]

/-- C10: the payload stored for an admitted event is the request body
with `id` and `status` split off, so on every reachable state each
buffered event — and each event the merge hands to an aggregate's
`messages` list — lacks both fields; and a request whose status value
is neither `online` nor `paused` is enqueued as an ordinary event with
its status field silently dropped. -/
theorem stored_events_exclude_id_status (rand : Nat → String)
    (trace : List SAction) (key : String) (qi : QueueInfo)
    (h : mapGet (runTrace rand initState trace).queues key = some qi) :
    (∀ m ∈ qi.messages, jget m "id" = none ∧ jget m "status" = none) ∧
    (∀ m ∈ mergeMessages qi.messages,
       jget m "id" = none ∧ jget m "status" = none) ∧
    (∀ (now : Nat) (body : JObj) (s : ServerState) (idv v : JVal),
       jget body "id" = some idv → jsFalsy idv = false →
       jget body "status" = some v → controlStatusOf (some v) = none →
       mapGet s.statuses (jsToString idv) ≠ some "paused" →
       ∃ qiNew, mapGet ((postWebhook rand now body s).1).queues
           (jsToString idv) = some qiNew ∧
         qiNew.messages ≠ [] ∧
         qiNew.messages.getLastD [] = objRemove body ["id", "status"] ∧
         jget (qiNew.messages.getLastD []) "status" = none ∧
         jget (qiNew.messages.getLastD []) "id" = none) := by
  have hclean : CleanQueues (runTrace rand initState trace) :=
    runTrace_clean rand trace initState initState_clean
  have hq := hclean key qi h
  refine ⟨hq, mergeMessages_clean qi.messages hq, ?_⟩
  intro now body s idv v hid hfal hv hcv hnp
  have hctl : controlStatusOf (jget body "status") = none := by
    rw [hv]
    exact hcv
  obtain ⟨qiNew, h1, h2, h3⟩ :=
    postWebhook_enqueues_last rand now body s idv hid hfal hctl hnp
  refine ⟨qiNew, h1, h2, h3, ?_, ?_⟩
  · rw [h3]
    exact (cleanEvent_objRemove body).2
  · rw [h3]
    exact (cleanEvent_objRemove body).1

theorem stored_events_exclude_id_status_witness :
    jget [("x", JVal.num 1)] "id" = none ∧
    jget [("x", JVal.num 1)] "status" = none :=
  (stored_events_exclude_id_status (fun n => toString n)
    [.post 0 [("id", JVal.str "k"), ("status", JVal.str "weird"),
              ("x", JVal.num 1)]]
    "k" ⟨"0", [[("x", JVal.num 1)]]⟩ rfl).1
    [("x", JVal.num 1)] (by simp)
